import Mathlib

/-!
Verification development for the `ilinks` internal-link analyser.

The repository crawls a WordPress site's REST API, extracts the internal
link graph between articles and aggregates inbound/outbound link counts
into a tabular report.  The Lean definitions below are a shallow embedding
of the Python sources:

* `core/api_client.py`    — `get_all_posts`, `get_post_content`
* `core/link_extractor.py`— `extract_internal_links`, `extract_acf_links`,
                            `resolve_slug_to_id`
* `core/data_processor.py`— `calculate_incoming_links`, `build_dataframe`
* `main.py`               — the per-site orchestration loop

HTTP transport is abstracted as explicit fetch behaviours (functions from
page number / attempt number to a response); Python exceptions escaping a
function are modelled with `Except Unit`; Python dicts are modelled as
association lists with first-match lookup and insertion-order iteration,
which agrees with `dict` semantics because keys are unique.
-/

deriving instance DecidableEq for Except

/-! ## Python dict model (int keys, list-of-int values) -/

/-- Association-list model of the Python dicts `links_per_post` /
`incoming_links` (`Dict[int, List[int]]`).  Iteration order is list order,
matching Python insertion order. -/
abbrev LMap := List (Int × List Int)

/-- Membership test on keys (`k in d`), first match. -/
def dictMemKey (k : Int) : LMap → Bool
  | [] => false
  | (k2, _) :: rest => if k2 = k then true else dictMemKey k rest

/-- Lookup (`d[k]` / `d.get(k)`), first match. -/
def dictGet (k : Int) : LMap → Option (List Int)
  | [] => none
  | (k2, v) :: rest => if k2 = k then some v else dictGet k rest

/-- Assignment `d[k] = v`: replaces the value at an existing key in place,
otherwise appends the new binding at the end (Python insertion order). -/
def dictSet (k : Int) (v : List Int) : LMap → LMap
  | [] => [(k, v)]
  | (k2, v2) :: rest =>
      if k2 = k then (k2, v) :: rest else (k2, v2) :: dictSet k v rest

/-- The statement `d[k].append(x)` on the (unique, hence first) entry with
key `k`; no effect when the key is absent. -/
def dictAppend (k : Int) (x : Int) : LMap → LMap
  | [] => []
  | (k2, v) :: rest =>
      if k2 = k then (k2, v ++ [x]) :: rest else (k2, v) :: dictAppend k x rest

/-- Total number of values across the whole map: the "count of entries
across all sequences" of the spec. -/
def totalLen (d : LMap) : Nat := (d.map (fun kv => kv.2.length)).sum

/-! ## `core/api_client.py` — article directory builder -/

/-- One element of a JSON array returned by `/wp-json/wp/v2/posts`:
either a JSON object (whose `id` / `slug` members may be absent) or a
non-object value, whose subscripting raises in Python. -/
inductive WEntry
  | obj (id : Option Int) (slug : Option String)
  | nonObj
deriving Repr, DecidableEq

/-- Decoded JSON body of a response.  `arr` is a JSON list; `nonArr` is any
other JSON value, split by Python truthiness: a falsy body (`{}`, `0`, `""`,
`null`) fails `if not posts`, a truthy one reaches the iteration /
subscripting code and raises there. -/
inductive WBody
  | arr (es : List WEntry)
  | nonArrTruthy
  | nonArrFalsy
deriving Repr, DecidableEq

/-- A successful HTTP response for the paginated posts listing:
the optional `X-WP-TotalPages` header and the JSON body. -/
structure WResponse where
  totalPages : Option Nat
  body : WBody
deriving Repr, DecidableEq

/-- An article as accumulated by `get_all_posts`: the `{"id": ..,
"slug": ..}` pair. -/
abbrev Article := Int × String

/-- Processing of one list element by
`all_posts.append({"id": post["id"], "slug": post["slug"]})`:
a missing member or a non-object element raises (`KeyError`/`TypeError`),
modelled as `Except.error`. -/
def procEntry : WEntry → Except Unit Article
  | .obj (some i) (some s) => .ok (i, s)
  | _ => .error ()

/-- The whole `for post in posts:` append loop over one page. -/
def procEntries (es : List WEntry) : Except Unit (List Article) :=
  es.mapM procEntry

/-- The `while page <= (total_pages or 1):` loop of `get_all_posts`,
fetching pages `page, page+1, ...` with `n` iterations remaining.
`fetch p = none` models `_make_request` returning `None` after exhausting
its retries (loop breaks, prior pages kept); an empty or falsy body breaks
likewise; a malformed body raises, propagated as `Except.error`. -/
def pagesFrom (fetch : Nat → Option WResponse) : Nat → Nat → Except Unit (List Article)
  | _, 0 => .ok []
  | page, n + 1 =>
    match fetch page with
    | none => .ok []
    | some r =>
      match r.body with
      | .nonArrFalsy => .ok []
      | .arr [] => .ok []
      | .nonArrTruthy => .error ()
      | .arr es => do
          let ps ← procEntries (es)
          let rest ← pagesFrom fetch (page + 1) n
          .ok (ps ++ rest)

/-- Embedding of `get_all_posts` (`core/api_client.py`).  `fetch` maps a
page number to the outcome of `_make_request` for that page.  The
function-wide `try/except` returns the empty list whenever an exception
escapes any page's processing; `X-WP-TotalPages` defaults to 1, and
`(total_pages or 1)` turns a 0 header into bound 1. -/
def get_all_posts (fetch : Nat → Option WResponse) : List Article :=
  match fetch 1 with
  | none => []
  | some r =>
    let total := r.totalPages.getD 1
    let bound := if total = 0 then 1 else total
    match r.body with
    | .nonArrTruthy => []
    | .nonArrFalsy => []
    | .arr [] => []
    | .arr es =>
      match (do
          let ps ← procEntries es
          let rest ← pagesFrom fetch 2 (bound - 1)
          pure (ps ++ rest) : Except Unit (List Article)) with
      | .error _ => []
      | .ok l => l

/-- Well-formed page entry from an `(id, slug)` pair. -/
def goodEntry (p : Article) : WEntry := .obj (some p.1) (some p.2)

/-- A two-page fetch behaviour: page 1 carries the entries `e1` and a
total-page count of 2, page 2 carries `e2`. -/
def twoPageBehavior (e1 e2 : List Article) : Nat → Option WResponse
  | 1 => some ⟨some 2, .arr (e1.map goodEntry)⟩
  | 2 => some ⟨none, .arr (e2.map goodEntry)⟩
  | _ => none

/-! ## `core/link_extractor.py` — ACF structured-field extraction -/

/-- One element of an ACF `related-posts` list: a Python `int`, a `str`,
or any other value (float, dict, `None`, ...), which the
`isinstance(x, (int, str))` guard drops. -/
inductive AcfVal
  | vint (n : Int)
  | vstr (s : String)
  | vother
deriving Repr, DecidableEq

/-- Value of an ACF field: a comma-separated string, a list, or any other
shape (which the `isinstance` chain maps to the empty result). -/
inductive AcfFieldVal
  | fstr (s : String)
  | flist (xs : List AcfVal)
  | fother
deriving Repr, DecidableEq

/-- The `acf` JSON object attached to a post, as a Python dict. -/
abbrev AcfDict := List (String × AcfFieldVal)

/-- First-match lookup modelling `acf_data.get(acf_field_name)`. -/
def acfGet (k : String) : AcfDict → Option AcfFieldVal
  | [] => none
  | (k2, v) :: rest => if k2 = k then some v else acfGet k rest

/-- Prepending one character to the first piece of a split. -/
def consHead (c : Char) : List (List Char) → List (List Char)
  | [] => [[c]]
  | h :: t => (c :: h) :: t

/-- Splitting of a character list at every occurrence of `sep`
(kernel-reducible model of `str.split(sep)`). -/
def splitOnChar (sep : Char) : List Char → List (List Char)
  | [] => [[]]
  | c :: cs =>
      if c = sep then [] :: splitOnChar sep cs
      else consHead c (splitOnChar sep cs)

/-- Python `s.split(sep)` for a one-character separator. -/
def pySplit (sep : Char) (s : String) : List String :=
  (splitOnChar sep s.toList).map (fun cs => String.mk cs)

/-- Python `str.strip()`: whitespace removed from both ends. -/
def pyStrip (s : String) : String :=
  String.mk (((s.toList.dropWhile Char.isWhitespace).reverse.dropWhile
    Char.isWhitespace).reverse)

/-- Python `str.isdigit()` for ASCII data: non-empty and all characters
decimal digits. -/
def pyIsDigit (s : String) : Bool :=
  !s.toList.isEmpty && s.toList.all Char.isDigit

/-- Accumulator pass of decimal parsing. -/
def digitsToNat : List Char → Nat → Nat
  | [], acc => acc
  | c :: cs, acc => digitsToNat cs (acc * 10 + (c.toNat - 48))

/-- Python `int(s)` on a digit string. -/
def pyInt (s : String) : Int := Int.ofNat (digitsToNat s.toList 0)

/-- Decimal digits of `n`, most significant first (`fuel`-bounded
structural recursion so the kernel can evaluate it). -/
def natDigits : Nat → Nat → List Char
  | 0, _ => []
  | fuel + 1, n =>
      if n < 10 then [Char.ofNat (48 + n)]
      else natDigits fuel (n / 10) ++ [Char.ofNat (48 + n % 10)]

/-- Python `str(x)` of an `int`. -/
def pyStrOfInt (n : Int) : String :=
  if n < 0 then String.mk ('-' :: natDigits (n.natAbs + 1) n.natAbs)
  else String.mk (natDigits (n.natAbs + 1) n.natAbs)

/-- The list-shape comprehension
`[int(x) for x in related_posts if isinstance(x, (int, str)) and str(x).isdigit()]`:
an `int` survives iff its decimal rendering is all digits (i.e. it is
non-negative), a `str` survives iff it is a digit string, everything else
is dropped. -/
def acfCoerce : AcfVal → Option Int
  | .vint n => if pyIsDigit (pyStrOfInt n) then some n else none
  | .vstr s => if pyIsDigit s then some (pyInt s) else none
  | .vother => none

/-- Embedding of `extract_acf_links` (`core/link_extractor.py`). String
shape: split on `','`, strip each piece, keep digit strings, convert to
`int` (the second `if x.isdigit()` in the source re-checks the already
filtered list and is redundant).  List shape: the `acfCoerce`
comprehension.  Any other shape, or an absent field, yields `[]`.  The
final `if post_id is not None` filter is the identity, since every element
produced above is an `int`. -/
def extract_acf_links (acf_data : AcfDict) (acf_field_name : String) : List Int :=
  match acfGet acf_field_name acf_data with
  | some (.fstr s) =>
      let pieces := (pySplit ',' s).map pyStrip
      ((pieces.filter pyIsDigit).filter pyIsDigit).map pyInt
  | some (.flist xs) => xs.filterMap acfCoerce
  | some .fother => []
  | none => []

/-! ## `core/link_extractor.py` — HTML anchor scraping

The source builds the pattern
`<a href="(?:https?://)?(?:www\.)?{re.escape(base_url.rstrip('/'))}([^"]*?)".*?>`
and runs `re.findall(..., re.IGNORECASE)` over the post content.  The
scanner below reproduces that specific pattern: at each position it tries
the literal `<a href="`, then the optional-scheme / optional-`www.`
alternatives in the regex backtracking order, then the escaped base URL
(all case-insensitively), captures up to the next `"` (the lazy `[^"]*?`
followed by `"`), and finally requires a `>` with no intervening newline
(the lazy `.*?>` with `.` not matching `\n`).  Matches are non-overlapping,
scanning left to right, as `findall` does. -/

/-- Case-insensitive literal-prefix match: on success, the remainder of
the input after the pattern. -/
def dropLitCI : List Char → List Char → Option (List Char)
  | [], s => some s
  | _ :: _, [] => none
  | p :: ps, c :: cs => if c.toLower = p.toLower then dropLitCI ps cs else none

/-- The lazy capture `([^"]*?)"`: characters up to the first `"`, plus the
remainder after that quote; fails when no quote follows. -/
def captureToQuote : List Char → Option (List Char × List Char)
  | [] => none
  | c :: cs =>
      if c = '"' then some ([], cs)
      else (captureToQuote cs).map (fun pr => (c :: pr.1, pr.2))

/-- The trailing `.*?>`: skip to the first `>`, failing on a newline or
end of input (`.` does not match `\n` without `re.DOTALL`). -/
def skipToGt : List Char → Option (List Char)
  | [] => none
  | c :: cs => if c = '>' then some cs else if c = '\n' then none else skipToGt cs

/-- Tail of the pattern after the optional prefixes: the escaped base URL
(case-insensitive literal), the capture, and `.*?>`.  Returns the captured
group and the input remaining after the whole match. -/
def matchBaseAndCapture (base s : List Char) : Option (String × List Char) :=
  match dropLitCI base s with
  | none => none
  | some s1 =>
    match captureToQuote s1 with
    | none => none
    | some (cap, s2) => (skipToGt s2).map (fun rest => (String.mk cap, rest))

/-- One optional-prefix alternative: drop `scheme` then `www` (either may
be empty) and match the rest of the pattern. -/
def tryAlt (scheme www base s : List Char) : Option (String × List Char) :=
  match dropLitCI scheme s with
  | none => none
  | some s1 =>
    match dropLitCI www s1 with
    | none => none
    | some s2 => matchBaseAndCapture base s2

/-- All `(?:https?://)?(?:www\.)?` alternatives, in the order the regex
engine backtracks through them (scheme present first, `https` before
`http`, `www.` before its absence). -/
def matchAfterHref (base s : List Char) : Option (String × List Char) :=
  (tryAlt "https://".toList "www.".toList base s).orElse fun _ =>
  (tryAlt "https://".toList [] base s).orElse fun _ =>
  (tryAlt "http://".toList "www.".toList base s).orElse fun _ =>
  (tryAlt "http://".toList [] base s).orElse fun _ =>
  (tryAlt [] "www.".toList base s).orElse fun _ =>
  tryAlt [] [] base s

/-- Attempt of the full pattern at the current position. -/
def matchAnchorAt (base s : List Char) : Option (String × List Char) :=
  match dropLitCI "<a href=\"".toList s with
  | none => none
  | some s1 => matchAfterHref base s1

/-- Left-to-right non-overlapping scan of `re.findall`: on a match, resume
after it; otherwise advance one character.  `fuel` (instantiated with the
input length) dominates the number of steps, since every step consumes at
least one character. -/
def findallAux (base : List Char) : Nat → List Char → List String
  | 0, _ => []
  | _ + 1, [] => []
  | fuel + 1, c :: cs =>
      match matchAnchorAt base (c :: cs) with
      | some (cap, rest) => cap :: findallAux base fuel rest
      | none => findallAux base fuel cs

/-- `re.findall(regex, post_content, re.IGNORECASE)` for the anchor
pattern: the list of captured URL remainders. -/
def findallAnchors (content base : List Char) : List String :=
  findallAux base content.length content

/-- Python `s.rstrip('/')` (resp. `s.strip('/')`): slashes removed from
the right (resp. both ends). -/
def rstripSlash (s : String) : String :=
  String.mk ((s.toList.reverse.dropWhile (fun c => c = '/')).reverse)

/-- Python `s.strip('/')`. -/
def stripSlash (s : String) : String :=
  String.mk (((s.toList.dropWhile (fun c => c = '/')).reverse.dropWhile
    (fun c => c = '/')).reverse)

/-- Python `c.lower()` character by character (ASCII). -/
def lowerStr (s : String) : String := String.mk (s.toList.map Char.toLower)

/-- Suffix test `s.endswith(t)`. -/
def strEndsWith (s t : String) : Bool :=
  t.toList.isSuffixOf s.toList

/-- The `urlparse(link).path` of a captured remainder: such remainders are
relative references (`/about`, `/files/x.pdf?dl=1#top`), whose path is
everything before the first `?` or `#`. -/
def urlPath (link : String) : String :=
  String.mk (link.toList.takeWhile (fun c => !(c = '?' || c = '#')))

/-- The `path.lower().endswith(('.pdf', '.jpg', '.jpeg', '.png', '.gif'))`
file filter. -/
def hasBinExt (path : String) : Bool :=
  strEndsWith (lowerStr path) ".pdf" || strEndsWith (lowerStr path) ".jpg" ||
  strEndsWith (lowerStr path) ".jpeg" || strEndsWith (lowerStr path) ".png" ||
  strEndsWith (lowerStr path) ".gif"

/-- The slug computation `path.strip('/').split('/')[-1]`
(`splitOnChar` never returns an empty list, so the `[-1]` subscript never
raises and `getLastD` is exact). -/
def slugOf (path : String) : String :=
  String.mk ((splitOnChar '/' (stripSlash path).toList).getLastD [])

/-- Per-capture body of the extraction loop: skip file links, otherwise
keep the computed slug. -/
def processLink (link : String) : Option String :=
  let path := urlPath link
  if hasBinExt path then none else some (slugOf path)

/-- Embedding of `extract_internal_links` (`core/link_extractor.py`).
The `try/except` wrapper is not modelled: no expression in the body can
raise in the model.  `base_url.rstrip('/')` feeds the escaped literal. -/
def extract_internal_links (post_content base_url : String) : List String :=
  (findallAnchors post_content.toList (rstripSlash base_url).toList).filterMap
    processLink

/-! ## `core/link_extractor.py` — slug resolution

`resolve_slug_to_id` issues up to `max_attempts` rounds of slug lookups:
posts, then (only when `ignore_non_posts` is false) pages and categories.
A `requests.exceptions.RequestException` (HTTP error, exhausted-retry
semantics of `raise_for_status`, JSON decode failure) lands in the retry
branch; any other exception lands in the generic `except Exception`
handler — whose logging line references the undefined name `url`
(the variable in scope is `api_url`), so that handler itself raises
`NameError` to the caller.  The model therefore maps every path through
the generic handler to `Except.error`. -/

/-- Outcome of one `requests.get(...)` + `raise_for_status()` + `.json()`
against a slug-filtered endpoint. -/
inductive WFetch
  | fail
  | ok (b : WBody)
deriving Repr, DecidableEq

/-- Outcome of one whole attempt of the resolution `try` body. -/
inductive ARes
  | found (i : Int)
  | notFound
  | transient
  | crash
deriving Repr, DecidableEq

/-- The `if results: return results[0]["id"]` step on a decoded body:
`none` means the body was falsy (empty list, `{}`, ...) and control falls
through to the next endpoint; a truthy non-list or a first element without
an `id` member raises, which the buggy generic handler turns into a crash. -/
def checkSlugBody : WBody → Option ARes
  | .arr [] => none
  | .nonArrFalsy => none
  | .arr (.obj (some i) _ :: _) => some (.found i)
  | .arr (_ :: _) => some .crash
  | .nonArrTruthy => some .crash

/-- One endpoint consultation: a failed fetch raises
`RequestException`, aborting the attempt as transient. -/
def endpointStep : WFetch → Option ARes
  | .fail => some .transient
  | .ok b => checkSlugBody b

/-- One full attempt: posts, then — only when `ignore_non_posts` is
false — pages and categories, returning the first decisive outcome. -/
def attemptResolve (fp fpg fc : WFetch) (ignore_non_posts : Bool) : ARes :=
  match endpointStep fp with
  | some r => r
  | none =>
    if ignore_non_posts then .notFound
    else
      match endpointStep fpg with
      | some r => r
      | none =>
        match endpointStep fc with
        | some r => r
        | none => .notFound

/-- The `for attempt in range(max_attempts)` loop: on a transient failure
the last attempt returns `None`, earlier ones sleep and retry; a crash is
the `NameError` escaping the generic handler. -/
def resolveLoop (fp fpg fc : Nat → WFetch) (ignore_non_posts : Bool) :
    Nat → Nat → Except Unit (Option Int)
  | _, 0 => .ok none
  | a, n + 1 =>
    match attemptResolve (fp a) (fpg a) (fc a) ignore_non_posts with
    | .found i => .ok (some i)
    | .notFound => .ok none
    | .crash => .error ()
    | .transient =>
        if n = 0 then .ok none
        else resolveLoop fp fpg fc ignore_non_posts (a + 1) n

/-- Embedding of `resolve_slug_to_id` (`core/link_extractor.py`) for one
slug: `fp`, `fpg`, `fc` give the per-attempt outcomes of the posts, pages
and categories lookups.  Falling off `range(0)` returns `None`, as in
Python. -/
def resolve_slug_to_id (fp fpg fc : Nat → WFetch) (ignore_non_posts : Bool)
    (max_attempts : Nat := 3) : Except Unit (Option Int) :=
  resolveLoop fp fpg fc ignore_non_posts 0 max_attempts

/-! ## `core/data_processor.py` — incoming links -/

/-- The initialisation loop `for post in all_posts: incoming_links[post['id']] = []`. -/
def initIncoming (all_posts : List Article) : LMap :=
  all_posts.foldl (fun d p => dictSet p.1 [] d) []

/-- Body of the nested aggregation loop: one resolved target of one
source article.  Unknown targets are warned about and skipped. -/
def incomingStep (src : Int) (d : LMap) (target : Int) : LMap :=
  if dictMemKey target d then dictAppend target src d else d

/-- Embedding of `calculate_incoming_links` (`core/data_processor.py`). -/
def calculate_incoming_links (all_posts : List Article) (links_per_post : LMap) : LMap :=
  links_per_post.foldl
    (fun d kv => kv.2.foldl (incomingStep kv.1) d)
    (initIncoming all_posts)

/-! ## `core/data_processor.py` — report rows and the pandas sort

`build_dataframe` assembles one row per article and then calls
`df.sort_values(by='incoming_count', ascending=False)`.  That call is
delegated to pandas with the default `kind='quicksort'`.  Its semantics,
modelled from the released pandas/numpy sources:

* `pandas.core.sorting.nargsort` (no NaN values here) reverses the value
  array and the index array, argsorts the reversed values with the chosen
  kind, composes, and reverses the resulting indexer — so the descending
  order is exactly the reversal of the kind's ascending argsort applied to
  the reversed input;
* numpy's `quicksort` kind is introsort: above ranges of 16 elements,
  median-of-3 partitioning with the pivot stashed at the penultimate slot
  and an inward swap scan; ranges of at most 16 elements are finished with
  a stable insertion sort.  The depth-limited heapsort fallback is
  unreachable at the sizes evaluated here and is not modelled.

Consequences proved below: sorting is stable for frames of at most 16
rows, and permutes tied rows as soon as a partition happens (17+ rows). -/

/-- One row of the report DataFrame. -/
structure Row where
  post_id : Int
  post_slug : String
  outgoing_count : Nat
  outgoing_links : String
  incoming_count : Nat
  incoming_links : String
deriving Repr, DecidableEq

/-- Python `", ".join(map(str, xs))`. -/
def joinIds (xs : List Int) : String :=
  String.intercalate ", " (xs.map (fun i => pyStrOfInt i))

/-- The row-building loop of `build_dataframe`. -/
def rowsOf (all_posts : List Article) (links_per_post incoming : LMap) : List Row :=
  all_posts.map (fun p =>
    let og := (dictGet p.1 links_per_post).getD []
    let ic := (dictGet p.1 incoming).getD []
    { post_id := p.1, post_slug := p.2,
      outgoing_count := og.length, outgoing_links := joinIds og,
      incoming_count := ic.length, incoming_links := joinIds ic })

/-- In-bounds array swap (identity when an index is out of range, which
never happens on the paths exercised). -/
def swapA (t : Array Nat) (i j : Nat) : Array Nat :=
  match t[i]?, t[j]? with
  | some x, some y => (t.setD i y).setD j x
  | _, _ => t

/-- Key of sort index `i`: the value the argsort compares. -/
def keyAt (v t : Array Nat) (i : Nat) : Nat := v.getD (t.getD i 0) 0

/-- The `do ++pi; while (v[*pi] < vp)` scan of numpy's partition. -/
def scanUp (v : Array Nat) (t : Array Nat) (vp : Nat) : Nat → Nat → Nat
  | pi, 0 => pi + 1
  | pi, fuel + 1 =>
      let pi1 := pi + 1
      if keyAt v t pi1 < vp then scanUp v t vp pi1 fuel else pi1

/-- The `do --pj; while (vp < v[*pj])` scan. -/
def scanDown (v : Array Nat) (t : Array Nat) (vp : Nat) : Nat → Nat → Nat
  | pj, 0 => pj - 1
  | pj, fuel + 1 =>
      let pj1 := pj - 1
      if vp < keyAt v t pj1 then scanDown v t vp pj1 fuel else pj1

/-- The inward swap loop of the partition; returns the permuted index
array and the final `pi`. -/
def partLoop (v : Array Nat) (vp : Nat) : Array Nat → Nat → Nat → Nat → Array Nat × Nat
  | t, pi, _, 0 => (t, pi)
  | t, pi, pj, fuel + 1 =>
      let pi1 := scanUp v t vp pi (v.size + 1)
      let pj1 := scanDown v t vp pj (v.size + 1)
      if pj1 ≤ pi1 then (t, pi1)
      else partLoop v vp (swapA t pi1 pj1) pi1 pj1 fuel

/-- Insertion of a sort index into an already-sorted run: it lands before
the first element whose value is not smaller, i.e. after smaller values
and before equal ones.  Combined with `List.foldr` below (which inserts
earlier elements last), ties keep their original relative order, exactly
as numpy's insertion sort (`while (vp < v[*pk])`, strict) behaves. -/
def insertByKey (v : Array Nat) (x : Nat) : List Nat → List Nat
  | [] => [x]
  | y :: ys =>
      if v.getD y 0 < v.getD x 0 then y :: insertByKey v x ys
      else x :: y :: ys

/-- Stable insertion sort of a run of sort indices by their values. -/
def stableSortIdx (v : Array Nat) (l : List Nat) : List Nat :=
  l.foldr (insertByKey v) []

/-- Insertion sort of the inclusive range `t[lo..hi]`: the slice is sorted
stably by value and written back. -/
def insRange (v t : Array Nat) (lo hi : Nat) : Array Nat :=
  let len := hi + 1 - lo
  let slice := (List.range len).filterMap (fun k => t[lo + k]?)
  let sorted := stableSortIdx v slice
  ((List.range len).zip sorted).foldl (fun t2 p => t2.setD (lo + p.1) p.2) t

/-- Recursive core of numpy's introsort on sort indices, on the inclusive
range `t[lo..hi]`: ranges longer than 16 are partitioned (median-of-3,
pivot stashed at `hi - 1`, inward swap scan), shorter ranges are finished
by insertion sort.  `fuel` bounds the recursion depth. -/
def aqsortRange (v : Array Nat) : Array Nat → Nat → Nat → Nat → Array Nat
  | t, _, _, 0 => t
  | t, lo, hi, fuel + 1 =>
    if hi - lo > 15 then
      let pm := lo + (hi - lo) / 2
      let t1 := if keyAt v t pm < keyAt v t lo then swapA t pm lo else t
      let t2 := if keyAt v t1 hi < keyAt v t1 pm then swapA t1 hi pm else t1
      let t3 := if keyAt v t2 pm < keyAt v t2 lo then swapA t2 pm lo else t2
      let vp := keyAt v t3 pm
      let t4 := swapA t3 pm (hi - 1)
      let pr := partLoop v vp t4 lo (hi - 1) (v.size + 1)
      let t5 := swapA pr.1 pr.2 (hi - 1)
      let t6 := aqsortRange v t5 lo (pr.2 - 1) fuel
      aqsortRange v t6 (pr.2 + 1) hi fuel
    else insRange v t lo hi

/-- numpy `values.argsort(kind='quicksort')` on a list of keys. -/
def numpyArgsort (vals : List Nat) : List Nat :=
  let v := vals.toArray
  if v.size = 0 then []
  else (aqsortRange v (Array.range v.size) 0 (v.size - 1) (v.size + 1)).toList

/-- `pandas.core.sorting.nargsort(values, kind='quicksort',
ascending=False)` without missing values: reverse the values and the
index array, argsort, compose, reverse the indexer. -/
def nargsortDesc (vals : List Nat) : List Nat :=
  let n := vals.length
  ((numpyArgsort vals.reverse).map (fun k => n - 1 - k)).reverse

/-- Embedding of `build_dataframe` (`core/data_processor.py`): the row
list reordered by `df.sort_values(by='incoming_count', ascending=False)`. -/
def build_dataframe (all_posts : List Article) (links_per_post incoming : LMap) :
    List Row :=
  let rows := rowsOf all_posts links_per_post incoming
  (nargsortDesc (rows.map Row.incoming_count)).filterMap (fun i => rows[i]?)

/-! ## `main.py` — per-site orchestration

One site's configuration and network behaviour in a single record.  The
CSV export is observationally the returned row list; logging is not
modelled.  `content` gives, per post id, the outcome of
`get_post_content`: `none` stands for a failed or structurally invalid
response (the source's `except` branches return `("", {})`). -/

/-- A raw outbound reference: an HTML-extracted slug (string) or an
ACF-extracted identifier (int), the two element shapes of `all_links`. -/
inductive RawRef
  | rslug (s : String)
  | rid (i : Int)
deriving Repr, DecidableEq

/-- Site configuration plus its fetch behaviours. -/
structure SiteBehavior where
  baseUrl : String
  acfField : String
  ignoreNonPosts : Bool
  pages : Nat → Option WResponse
  content : Int → Option (String × AcfDict)
  slugPosts : String → Nat → WFetch
  slugPages : String → Nat → WFetch
  slugCats : String → Nat → WFetch

/-- Embedding of `get_post_content` (`core/api_client.py`): a failed
request or a body without `content.rendered` yields `("", {})`. -/
def get_post_content (sb : SiteBehavior) (post_id : Int) : String × AcfDict :=
  (sb.content post_id).getD ("", [])

/-- The per-post extraction steps of `main`: HTML slugs (skipped for a
falsy content string) concatenated with ACF identifiers (skipped for a
falsy `acf_data` dict), in that order. -/
def refsOf (sb : SiteBehavior) (post_id : Int) : List RawRef :=
  let pc := get_post_content sb post_id
  let internal := if pc.1 = "" then [] else extract_internal_links pc.1 sb.baseUrl
  let acfLinks := if pc.2 = [] then [] else extract_acf_links pc.2 sb.acfField
  internal.map RawRef.rslug ++ acfLinks.map RawRef.rid

/-- The `isinstance(link, int)` branch of `main`: numeric references are
used directly, slugs go through `resolve_slug_to_id`. -/
def evalRef (sb : SiteBehavior) : RawRef → Except Unit (Option Int)
  | .rid i => .ok (some i)
  | .rslug s =>
      resolve_slug_to_id (sb.slugPosts s) (sb.slugPages s) (sb.slugCats s)
        sb.ignoreNonPosts 3

/-- The `for link in all_links:` loop of `main`.  `if linked_post_id:`
is Python truthiness: both `None` and `0` take the warning branch and are
never appended.  A truthy id is appended when it belongs to the fetched
article ids or `ignore_non_posts` is false. -/
def refsLoop (sb : SiteBehavior) (postIds : List Int) (post_id : Int) :
    List RawRef → LMap → Except Unit LMap
  | [], lm => .ok lm
  | r :: rs, lm =>
    match evalRef sb r with
    | .error e => .error e
    | .ok linked =>
      let lm2 :=
        match linked with
        | none => lm
        | some i =>
          if i = 0 then lm
          else if postIds.contains i || !sb.ignoreNonPosts then
            dictAppend post_id i lm
          else lm
      refsLoop sb postIds post_id rs lm2

/-- The `for post in all_posts:` loop of `main`, building
`links_per_post`: each post's entry is initialised to `[]` and then
filled by `refsLoop`. -/
def postsLoop (sb : SiteBehavior) (postIds : List Int) :
    List Article → LMap → Except Unit LMap
  | [], lm => .ok lm
  | p :: ps, lm =>
    match refsLoop sb postIds p.1 (refsOf sb p.1) (dictSet p.1 [] lm) with
    | .error e => .error e
    | .ok lm2 => postsLoop sb postIds ps lm2

/-- Steps 2 of `main`: the complete `links_per_post` construction for one
site's fetched article list. -/
def buildLinksPerPost (sb : SiteBehavior) (all_posts : List Article) :
    Except Unit LMap :=
  postsLoop sb (all_posts.map Prod.fst) all_posts []

/-- One iteration of the site loop in `main`: article discovery, link
extraction and resolution, aggregation, report construction.
`Except.error` is an exception escaping the site's processing; `ok none`
is the `if not all_posts: continue` branch. -/
def processSite (sb : SiteBehavior) : Except Unit (Option (List Row)) :=
  let all_posts := get_all_posts sb.pages
  if all_posts.isEmpty then .ok none
  else
    match buildLinksPerPost sb all_posts with
    | .error e => .error e
    | .ok lm =>
        let inc := calculate_incoming_links all_posts lm
        .ok (some (build_dataframe all_posts lm inc))

/-- Embedding of `main` (`main.py`): the list of reports successfully
produced (and exported), in site order.  The single `try/except` wraps
the whole `for site in SITES:` loop, so the first exception ends the
entire run: no later site is processed. -/
def main : List SiteBehavior → List (List Row)
  | [] => []
  | sb :: rest =>
    match processSite sb with
    | .error _ => []
    | .ok none => main rest
    | .ok (some out) => out :: main rest

/-! ## Concrete site behaviours used by the claims -/

/-- One-page directory listing containing exactly the given articles. -/
def onePage (es : List Article) : Nat → Option WResponse
  | 1 => some ⟨some 1, .arr (es.map goodEntry)⟩
  | _ => none

/-- A site whose single article links (by slug) to a WordPress *page*:
the posts-by-slug lookup finds nothing, the pages-by-slug lookup would
find id 7.  `ignore_non_posts` is true. -/
def pageOnlySite : SiteBehavior where
  baseUrl := "https://ex.com"
  acfField := "related-posts"
  ignoreNonPosts := true
  pages := onePage [(10, "p")]
  content := fun i =>
    if i = 10 then some ("<a href=\"https://ex.com/about-page\">x</a>", []) else none
  slugPosts := fun _ _ => .ok (.arr [])
  slugPages := fun _ _ => .ok (.arr [.obj (some 7) none])
  slugCats := fun _ _ => .ok (.arr [])

/-- A site whose single article links to a slug whose posts-by-slug
response has a first element without an `id` member — the input that makes
`resolve_slug_to_id` raise `NameError` from its generic handler. -/
def crashSite : SiteBehavior where
  baseUrl := "https://ex.com"
  acfField := "related-posts"
  ignoreNonPosts := true
  pages := onePage [(1, "x")]
  content := fun i =>
    if i = 1 then some ("<a href=\"https://ex.com/boom\">x</a>", []) else none
  slugPosts := fun _ _ => .ok (.arr [.obj none none])
  slugPages := fun _ _ => .fail
  slugCats := fun _ _ => .fail

/-- A healthy site with one article and no links. -/
def goodSite : SiteBehavior where
  baseUrl := "https://ex.com"
  acfField := "related-posts"
  ignoreNonPosts := true
  pages := onePage [(2, "y")]
  content := fun _ => none
  slugPosts := fun _ _ => .fail
  slugPages := fun _ _ => .fail
  slugCats := fun _ _ => .fail

/-- A site whose article listing cannot be fetched at all: `main` logs an
error and continues with the next site. -/
def emptySite : SiteBehavior where
  baseUrl := "https://ex.com"
  acfField := "related-posts"
  ignoreNonPosts := true
  pages := fun _ => none
  content := fun _ => none
  slugPosts := fun _ _ => .fail
  slugPages := fun _ _ => .fail
  slugCats := fun _ _ => .fail

/-- A site whose single article carries the ACF references `[0, 5]`:
the well-formed identifier 0 exercises the `if linked_post_id:`
truthiness check of `main`. -/
def zeroRefSite : SiteBehavior where
  baseUrl := "https://ex.com"
  acfField := "related-posts"
  ignoreNonPosts := true
  pages := onePage [(5, "p")]
  content := fun i =>
    if i = 5 then some ("", [("related-posts", .flist [.vint 0, .vint 5])]) else none
  slugPosts := fun _ _ => .fail
  slugPages := fun _ _ => .fail
  slugCats := fun _ _ => .fail

/-- Values of the incoming-links accumulator are all empty after
initialisation. -/
def allNil (d : LMap) : Prop := ∀ kv ∈ d, kv.2 = ([] : List Int)
/-- No value list of the map contains the identifier 0. -/
def noZero (d : LMap) : Prop := ∀ kv ∈ d, (0 : Int) ∉ kv.2
/-- Keep-rule of the specification, stated in its words: an element is
kept iff it is coercible to a non-negative integer — a digit string or an
already-numeric non-negative value. -/
def specKeep : AcfVal → Option Int
  | .vint n => if 0 ≤ n then some n else none
  | .vstr s => if pyIsDigit s then some (pyInt s) else none
  | .vother => none
/-- Specification-side reading of the slug rule: the last non-empty
`/`-separated segment of the path (empty when the path has none). -/
def lastNonEmptySeg (path : String) : String :=
  String.mk (((splitOnChar '/' path.toList).filter
    (fun l => !l.isEmpty)).getLastD [])
/-- Removal of trailing slashes only. -/
def dropTrailSlash (cs : List Char) : List Char :=
  (cs.reverse.dropWhile (fun c => c = '/')).reverse

/-! ## Definitions used by the claim statements -/

/-- Seventeen articles with no links: large enough that the pandas
quicksort path partitions (> 16 rows). -/
def P17 : List Article :=
  [(1, "s1"), (2, "s2"), (3, "s3"), (4, "s4"), (5, "s5"), (6, "s6"), (7, "s7"),
   (8, "s8"), (9, "s9"), (10, "s10"), (11, "s11"), (12, "s12"), (13, "s13"),
   (14, "s14"), (15, "s15"), (16, "s16"), (17, "s17")]

/-- Fetch behaviour: page 1 well-formed, page 2 (of 2) has an entry with
no `id`/`slug` members. -/
def malformedPage2 : Nat → Option WResponse
  | 1 => some ⟨some 2, .arr [goodEntry (1, "a")]⟩
  | 2 => some ⟨none, .arr [.obj none none]⟩
  | _ => none

/-- Fetch behaviour: page 1 well-formed, page 2 (of 2) is a truthy
non-list JSON body. -/
def nonListPage2 : Nat → Option WResponse
  | 1 => some ⟨some 2, .arr [goodEntry (1, "a")]⟩
  | 2 => some ⟨none, .nonArrTruthy⟩
  | _ => none

/-- Fetch behaviour: pages 1 and 2 (of 5) well-formed, the page-3 fetch
fails after its retries. -/
def failPage3of5 : Nat → Option WResponse
  | 1 => some ⟨some 5, .arr [goodEntry (1, "a")]⟩
  | 2 => some ⟨none, .arr [goodEntry (2, "b")]⟩
  | _ => none

/-- Per-link rule in the order the claim states it: extract the path,
strip the trailing slash, skip when the final segment has a binary-asset
extension, otherwise return the last non-empty segment. -/
def claimProcessLink (link : String) : Option String :=
  let path := urlPath link
  let stripped := String.mk (dropTrailSlash path.toList)
  let seg := lastNonEmptySeg stripped
  if hasBinExt seg then none else some seg

/-! ## Lemmas about the dict model -/

theorem dictMemKey_dictSet (s k : Int) (v : List Int) (d : LMap) :
    dictMemKey s (dictSet k v d) = (decide (k = s) || dictMemKey s d) := by
  induction d with
  | nil => simp [dictSet, dictMemKey]
  | cons kv rest ih =>
      obtain ⟨k2, v2⟩ := kv
      by_cases h : k2 = k
      · subst h
        simp [dictSet, dictMemKey]
      · simp [dictSet, dictMemKey, h]
        by_cases h2 : k2 = s
        · subst h2
          simp [h]
        · simp [h2, ih]

theorem dictMemKey_dictAppend (s k x : Int) (d : LMap) :
    dictMemKey s (dictAppend k x d) = dictMemKey s d := by
  induction d with
  | nil => simp [dictAppend]
  | cons kv rest ih =>
      obtain ⟨k2, v2⟩ := kv
      by_cases h : k2 = k
      · simp [dictAppend, dictMemKey, h]
      · simp [dictAppend, dictMemKey, h, ih]

theorem totalLen_dictAppend (k x : Int) (d : LMap) :
    dictMemKey k d = true → totalLen (dictAppend k x d) = totalLen d + 1 := by
  induction d with
  | nil => intro h; simp [dictMemKey] at h
  | cons kv rest ih =>
      obtain ⟨k2, v2⟩ := kv
      intro h
      by_cases h2 : k2 = k
      · simp [dictAppend, h2, totalLen]
        omega
      · simp only [dictMemKey, if_neg h2] at h
        have h3 := ih h
        simp only [dictAppend, if_neg h2, totalLen, List.map_cons, List.sum_cons] at h3 ⊢
        omega

theorem allNil_dictSet {d : LMap} (k : Int) (h : allNil d) :
    allNil (dictSet k [] d) := by
  induction d with
  | nil =>
      intro kv hkv
      simp [dictSet] at hkv
      simp [hkv]
  | cons kv0 rest ih =>
      obtain ⟨k2, v2⟩ := kv0
      intro kv hkv
      by_cases h2 : k2 = k
      · simp only [dictSet, if_pos h2, List.mem_cons] at hkv
        rcases hkv with h3 | h3
        · simp [h3]
        · exact h kv (List.mem_cons_of_mem _ h3)
      · simp only [dictSet, if_neg h2, List.mem_cons] at hkv
        rcases hkv with h3 | h3
        · exact h kv (h3 ▸ List.mem_cons_self _ _)
        · exact ih (fun kv2 hkv2 => h kv2 (List.mem_cons_of_mem _ hkv2)) kv h3

theorem totalLen_of_allNil {d : LMap} (h : allNil d) : totalLen d = 0 := by
  induction d with
  | nil => simp [totalLen]
  | cons kv rest ih =>
      simp [totalLen] at ih ⊢
      constructor
      · have := h kv (by simp)
        simp [this]
      · exact ih (fun kv2 hkv2 => h kv2 (by simp [hkv2]))

theorem allNil_initIncoming (all_posts : List Article) :
    allNil (initIncoming all_posts) := by
  suffices h : ∀ d, allNil d → allNil (all_posts.foldl (fun d p => dictSet p.1 [] d) d) by
    exact h [] (by intro kv hkv; simp at hkv)
  induction all_posts with
  | nil => intro d hd; exact hd
  | cons p ps ih =>
      intro d hd
      exact ih (dictSet p.1 [] d) (allNil_dictSet p.1 hd)

theorem dictMemKey_initIncoming (t : Int) (all_posts : List Article) :
    dictMemKey t (initIncoming all_posts) = true ↔ t ∈ all_posts.map Prod.fst := by
  suffices h : ∀ d, dictMemKey t (all_posts.foldl (fun d p => dictSet p.1 [] d) d)
      = (dictMemKey t d || decide (t ∈ all_posts.map Prod.fst)) by
    rw [initIncoming, h []]
    simp [dictMemKey]
  induction all_posts with
  | nil => intro d; simp
  | cons p ps ih =>
      intro d
      simp only [List.foldl_cons, ih, dictMemKey_dictSet]
      simp [eq_comm]
      by_cases h1 : t = p.1
      · simp [h1]
      · have h2 : (t == p.1) = false := by simp [h1]
        simp [h1, h2]

/-! ## Conservation lemmas for `calculate_incoming_links` -/

theorem dictMemKey_incomingFold (s src : Int) (ts : List Int) (d : LMap) :
    dictMemKey s (ts.foldl (incomingStep src) d) = dictMemKey s d := by
  induction ts generalizing d with
  | nil => rfl
  | cons t ts ih =>
      simp only [List.foldl_cons, ih]
      unfold incomingStep
      by_cases h : dictMemKey t d = true
      · simp [h, dictMemKey_dictAppend]
      · simp [h]

theorem totalLen_incomingFold (src : Int) (ts : List Int) (d : LMap)
    (h : ∀ t ∈ ts, dictMemKey t d = true) :
    totalLen (ts.foldl (incomingStep src) d) = totalLen d + ts.length := by
  induction ts generalizing d with
  | nil => simp
  | cons t ts ih =>
      have ht : dictMemKey t d = true := h t (List.mem_cons_self _ _)
      have hstep : incomingStep src d t = dictAppend t src d := by
        unfold incomingStep; simp [ht]
      simp only [List.foldl_cons, hstep]
      rw [ih (dictAppend t src d)
        (fun t2 ht2 => by
          rw [dictMemKey_dictAppend]
          exact h t2 (List.mem_cons_of_mem _ ht2))]
      rw [totalLen_dictAppend t src d ht]
      simp [List.length_cons]
      omega

theorem dictMemKey_calcFold (s : Int) (links : LMap) (d : LMap) :
    dictMemKey s (links.foldl (fun d kv => kv.2.foldl (incomingStep kv.1) d) d)
      = dictMemKey s d := by
  induction links generalizing d with
  | nil => rfl
  | cons kv links ih =>
      simp only [List.foldl_cons, ih, dictMemKey_incomingFold]

theorem totalLen_calcFold (links : LMap) (d : LMap)
    (h : ∀ kv ∈ links, ∀ t ∈ kv.2, dictMemKey t d = true) :
    totalLen (links.foldl (fun d kv => kv.2.foldl (incomingStep kv.1) d) d)
      = totalLen d + totalLen links := by
  induction links generalizing d with
  | nil => simp [totalLen]
  | cons kv links ih =>
      simp only [List.foldl_cons]
      rw [ih _ (fun kv2 hkv2 t ht => by
        rw [dictMemKey_incomingFold]
        exact h kv2 (List.mem_cons_of_mem _ hkv2) t ht)]
      rw [totalLen_incomingFold kv.1 kv.2 d
        (fun t ht => h kv (List.mem_cons_self _ _) t ht)]
      simp [totalLen]
      omega

/-! ## No-zero invariant of the `links_per_post` construction -/

theorem noZero_dictSet {d : LMap} (k : Int) (h : noZero d) :
    noZero (dictSet k [] d) := by
  induction d with
  | nil =>
      intro kv hkv
      simp [dictSet] at hkv
      simp [hkv]
  | cons kv0 rest ih =>
      obtain ⟨k2, v2⟩ := kv0
      intro kv hkv
      by_cases h2 : k2 = k
      · simp only [dictSet, if_pos h2, List.mem_cons] at hkv
        rcases hkv with h3 | h3
        · simp [h3]
        · exact h kv (List.mem_cons_of_mem _ h3)
      · simp only [dictSet, if_neg h2, List.mem_cons] at hkv
        rcases hkv with h3 | h3
        · exact h kv (h3 ▸ List.mem_cons_self _ _)
        · exact ih (fun kv2 hkv2 => h kv2 (List.mem_cons_of_mem _ hkv2)) kv h3

theorem noZero_dictAppend {d : LMap} (k x : Int) (hx : x ≠ 0) (h : noZero d) :
    noZero (dictAppend k x d) := by
  induction d with
  | nil => intro kv hkv; simp [dictAppend] at hkv
  | cons kv0 rest ih =>
      obtain ⟨k2, v2⟩ := kv0
      intro kv hkv
      by_cases h2 : k2 = k
      · simp only [dictAppend, if_pos h2, List.mem_cons] at hkv
        rcases hkv with h3 | h3
        · subst h3
          have h4 := h (k2, v2) (List.mem_cons_self _ _)
          simp at h4 ⊢
          exact ⟨h4, fun h5 => hx h5.symm⟩
        · exact h kv (List.mem_cons_of_mem _ h3)
      · simp only [dictAppend, if_neg h2, List.mem_cons] at hkv
        rcases hkv with h3 | h3
        · exact h kv (h3 ▸ List.mem_cons_self _ _)
        · exact ih (fun kv2 hkv2 => h kv2 (List.mem_cons_of_mem _ hkv2)) kv h3

theorem dictGet_mem {d : LMap} {k : Int} {v : List Int} (h : dictGet k d = some v) :
    (k, v) ∈ d := by
  induction d with
  | nil => simp [dictGet] at h
  | cons kv0 rest ih =>
      obtain ⟨k2, v2⟩ := kv0
      by_cases h2 : k2 = k
      · simp only [dictGet, if_pos h2] at h
        subst h2
        simp at h
        simp [h]
      · simp only [dictGet, if_neg h2] at h
        exact List.mem_cons_of_mem _ (ih h)

theorem refsLoop_noZero (sb : SiteBehavior) (postIds : List Int) (post_id : Int)
    (refs : List RawRef) :
    ∀ lm lm2, noZero lm → refsLoop sb postIds post_id refs lm = .ok lm2 → noZero lm2 := by
  induction refs with
  | nil =>
      intro lm lm2 h heq
      simp only [refsLoop] at heq
      cases heq
      exact h
  | cons r rs ih =>
      intro lm lm2 h heq
      simp only [refsLoop] at heq
      cases hres : evalRef sb r with
      | error e => rw [hres] at heq; cases heq
      | ok linked =>
          rw [hres] at heq
          cases linked with
          | none => exact ih lm lm2 h heq
          | some i =>
              by_cases hi : i = 0
              · simp only [if_pos hi] at heq
                exact ih lm lm2 h heq
              · simp only [if_neg hi] at heq
                by_cases hmem : (postIds.contains i || !sb.ignoreNonPosts) = true
                · rw [if_pos hmem] at heq
                  exact ih _ lm2 (noZero_dictAppend post_id i hi h) heq
                · rw [if_neg hmem] at heq
                  exact ih lm lm2 h heq

theorem postsLoop_noZero (sb : SiteBehavior) (postIds : List Int) :
    ∀ (ps : List Article) (lm lm2 : LMap), noZero lm →
      postsLoop sb postIds ps lm = .ok lm2 → noZero lm2 := by
  intro ps
  induction ps with
  | nil =>
      intro lm lm2 h heq
      simp only [postsLoop] at heq
      cases heq
      exact h
  | cons p ps ih =>
      intro lm lm2 h heq
      simp only [postsLoop] at heq
      cases hres : refsLoop sb postIds p.1 (refsOf sb p.1) (dictSet p.1 [] lm) with
      | error e => rw [hres] at heq; cases heq
      | ok lm1 =>
          rw [hres] at heq
          exact ih lm1 lm2
            (refsLoop_noZero sb postIds p.1 (refsOf sb p.1) _ lm1
              (noZero_dictSet p.1 h) hres) heq

/-! ## Pagination lemmas -/

theorem procEntries_goodEntry (l : List Article) :
    procEntries (l.map goodEntry) = .ok l := by
  induction l with
  | nil => rfl
  | cons p ps ih =>
      simp only [List.map_cons, procEntries, List.mapM_cons] at ih ⊢
      rw [show procEntry (goodEntry p) = .ok p from rfl]
      simp only [ih]
      rfl

theorem get_all_posts_twoPages (a : Article) (e1 e2 : List Article) :
    get_all_posts (twoPageBehavior (a :: e1) e2) = (a :: e1) ++ e2 := by
  have h1 : procEntries (goodEntry a :: e1.map goodEntry) = .ok (a :: e1) := by
    simpa using procEntries_goodEntry (a :: e1)
  cases e2 with
  | nil =>
      simp only [get_all_posts, twoPageBehavior, List.map_cons]
      simp [pagesFrom, twoPageBehavior, h1]
      rfl
  | cons b e2 =>
      have h2 : procEntries (goodEntry b :: e2.map goodEntry) = .ok (b :: e2) := by
        simpa using procEntries_goodEntry (b :: e2)
      simp only [get_all_posts, twoPageBehavior, List.map_cons]
      simp [pagesFrom, twoPageBehavior, h1, h2]
      change (a :: e1) ++ ((b :: e2) ++ []) = a :: (e1 ++ b :: e2)
      simp

/-! ## Digit-string lemmas for the ACF coercion -/

theorem digitChar_isDigit {n : Nat} (h : n < 10) :
    (Char.ofNat (48 + n)).isDigit = true := by
  interval_cases n <;> decide

theorem natDigits_mem_isDigit (fuel n : Nat) :
    ∀ c ∈ natDigits fuel n, c.isDigit = true := by
  induction fuel generalizing n with
  | zero => intro c hc; simp [natDigits] at hc
  | succ fuel ih =>
      intro c hc
      simp only [natDigits] at hc
      by_cases h : n < 10
      · rw [if_pos h] at hc
        simp at hc
        subst hc
        exact digitChar_isDigit h
      · rw [if_neg h] at hc
        simp at hc
        rcases hc with hc | hc
        · exact ih (n / 10) c hc
        · subst hc
          exact digitChar_isDigit (Nat.mod_lt _ (by norm_num))

theorem natDigits_ne_nil (fuel n : Nat) (h : 0 < fuel) : natDigits fuel n ≠ [] := by
  cases fuel with
  | zero => omega
  | succ fuel =>
      simp only [natDigits]
      by_cases h2 : n < 10
      · simp [h2]
      · simp [h2]

theorem pyIsDigit_pyStrOfInt (n : Int) :
    pyIsDigit (pyStrOfInt n) = decide (0 ≤ n) := by
  by_cases h : n < 0
  · have h2 : ¬(0 ≤ n) := by omega
    simp only [pyStrOfInt, if_pos h, pyIsDigit]
    simp [h2]
  · have h2 : 0 ≤ n := by omega
    simp only [pyStrOfInt, if_neg h, pyIsDigit]
    simp [h2]
    constructor
    · simpa using natDigits_ne_nil (n.natAbs + 1) n.natAbs (by omega)
    · exact natDigits_mem_isDigit (n.natAbs + 1) n.natAbs

theorem acfCoerce_eq_specKeep (v : AcfVal) : acfCoerce v = specKeep v := by
  cases v with
  | vint n => simp [acfCoerce, specKeep, pyIsDigit_pyStrOfInt]
  | vstr s => rfl
  | vother => rfl

theorem map_filter_eq_filterMap (p : String → Bool) (f : String → Int)
    (l : List String) :
    (l.filter p).map f = l.filterMap (fun x => if p x then some (f x) else none) := by
  induction l with
  | nil => rfl
  | cons x xs ih =>
      by_cases h : p x = true
      · simp [List.filter_cons, h, List.filterMap_cons, ih]
      · simp [List.filter_cons, h, List.filterMap_cons, ih]

/-! ## The slug is the last non-empty path segment -/

theorem split_ne_nil (sep : Char) (cs : List Char) : splitOnChar sep cs ≠ [] := by
  cases cs with
  | nil => simp [splitOnChar]
  | cons c cs =>
      simp only [splitOnChar]
      by_cases h : c = sep
      · simp [h]
      · simp only [if_neg h]
        cases splitOnChar sep cs <;> simp [consHead]

theorem getLastD_irrel {α : Type} (l : List α) (h : l ≠ []) (a b : α) :
    l.getLastD a = l.getLastD b := by
  cases l with
  | nil => exact absurd rfl h
  | cons x xs => rw [List.getLastD_cons, List.getLastD_cons]

theorem split_append_sep (sep : Char) (ds : List Char) :
    splitOnChar sep (ds ++ [sep]) = splitOnChar sep ds ++ [[]] := by
  induction ds with
  | nil => simp [splitOnChar, consHead]
  | cons d ds ih =>
      cases hs : splitOnChar sep ds with
      | nil => exact absurd hs (split_ne_nil sep ds)
      | cons x t =>
          by_cases h : d = sep
          · simp [splitOnChar, h, ih, hs]
          · simp only [List.cons_append, splitOnChar, if_neg h, List.append_eq, ih, hs]
            simp [consHead]

theorem split_append_ne (sep c : Char) (hc : ¬c = sep) (ds : List Char) :
    splitOnChar sep (ds ++ [c])
      = (splitOnChar sep ds).dropLast
        ++ [(splitOnChar sep ds).getLastD [] ++ [c]] := by
  induction ds with
  | nil => simp [splitOnChar, hc, consHead]
  | cons d ds ih =>
      cases hs : splitOnChar sep ds with
      | nil => exact absurd hs (split_ne_nil sep ds)
      | cons x t =>
          by_cases h : d = sep
          · simp only [List.cons_append, splitOnChar, if_pos h, List.append_eq, ih, hs]
            cases t with
            | nil => simp
            | cons y t2 =>
                simp [List.getLastD_cons,
                  getLastD_irrel (y :: t2) (by simp) x [],
                  getLastD_irrel (y :: t2) (by simp) (d :: x) []]
          · simp only [List.cons_append, splitOnChar, if_neg h, List.append_eq, ih, hs]
            cases t with
            | nil => simp [consHead]
            | cons y t2 =>
                simp [consHead, List.getLastD_cons,
                  getLastD_irrel (y :: t2) (by simp) x [],
                  getLastD_irrel (y :: t2) (by simp) (d :: x) []]

theorem dropTrail_concat_sep (ds : List Char) :
    dropTrailSlash (ds ++ ['/']) = dropTrailSlash ds := by
  simp [dropTrailSlash, List.dropWhile]

theorem dropTrail_concat_ne {c : Char} (h : ¬c = '/') (ds : List Char) :
    dropTrailSlash (ds ++ [c]) = ds ++ [c] := by
  simp [dropTrailSlash, List.dropWhile, h]

theorem lastSeg_dropTrail (cs : List Char) :
    (splitOnChar '/' (dropTrailSlash cs)).getLastD []
      = ((splitOnChar '/' cs).filter (fun l => !l.isEmpty)).getLastD [] := by
  induction cs using List.reverseRecOn with
  | nil => simp [dropTrailSlash, splitOnChar]
  | append_singleton ds c ih =>
      by_cases h : c = '/'
      · subst h
        rw [dropTrail_concat_sep, ih, split_append_sep]
        simp [List.filter_append]
      · rw [dropTrail_concat_ne h, split_append_ne '/' c h]
        simp only [List.filter_append]
        rw [List.getLastD_concat]
        have h2 : ((splitOnChar '/' ds).getLastD [] ++ [c]).isEmpty = false := by
          simp
        simp only [List.filter_cons, h2]
        simp [List.getLastD_concat]

theorem filter_split_dropLead (cs : List Char) :
    (splitOnChar '/' (cs.dropWhile (fun c => c = '/'))).filter (fun l => !l.isEmpty)
      = (splitOnChar '/' cs).filter (fun l => !l.isEmpty) := by
  induction cs with
  | nil => rfl
  | cons c cs ih =>
      by_cases h : c = '/'
      · subst h
        simp only [List.dropWhile, decide_True]
        rw [ih]
        simp [splitOnChar]
      · simp only [List.dropWhile]
        simp [splitOnChar, h]

theorem slugOf_eq_lastNonEmptySeg (path : String) :
    slugOf path = lastNonEmptySeg path := by
  unfold slugOf lastNonEmptySeg
  congr 1
  have h1 : (stripSlash path).toList
      = dropTrailSlash (path.toList.dropWhile (fun c => c = '/')) := rfl
  rw [h1, lastSeg_dropTrail, filter_split_dropLead]
/-! # Claims -/

/-- C1: the claim asserts that with `ignore_non_posts = true` a slug
matching only a page still resolves to the page's identifier, main then
dropping it.  False: with the flag set, `resolve_slug_to_id` never queries
the pages endpoint, so the resolution returns `None` (not the page id 7),
even though the same behaviour with the flag cleared does return 7. -/
theorem C1_counterexample :
    resolve_slug_to_id (fun _ => .ok (.arr []))
      (fun _ => .ok (.arr [.obj (some 7) none])) (fun _ => .ok (.arr [])) true 3
      ≠ .ok (some 7)
    ∧ resolve_slug_to_id (fun _ => .ok (.arr []))
      (fun _ => .ok (.arr [.obj (some 7) none])) (fun _ => .ok (.arr [])) false 3
      = .ok (some 7) := ⟨by decide, by decide⟩

/-- C1 (amended): with `ignore_non_posts = true`, a slug matching no post
resolves to `None` whatever the pages/categories endpoints would answer;
the orchestration loop in `main` then logs it as not found and never
appends it, so the final `links_per_post` keeps the article with an empty
outgoing list. -/
theorem C1_amended :
    (∀ fpg fc : Nat → WFetch,
        resolve_slug_to_id (fun _ => .ok (.arr [])) fpg fc true 3 = .ok none)
    ∧ get_all_posts pageOnlySite.pages = [(10, "p")]
    ∧ buildLinksPerPost pageOnlySite [(10, "p")] = .ok [(10, [])] :=
  ⟨fun _ _ => rfl, by decide, by rfl⟩

/-- C2: the claim asserts `build_dataframe` output is sorted by
`incoming_count` descending with ties keeping the input (article
directory) order.  False for 17 tied rows: `sort_values` with the default
quicksort permutes the ties. -/
theorem C2_counterexample :
    (build_dataframe P17 [] []).map Row.post_id ≠ P17.map Prod.fst := by decide

/-- C2 (amended): rows are reordered by the pandas descending sort on
`incoming_count`.  That sort keeps tied rows in input order only while
numpy's introsort stays on its insertion-sort path (at most 16 rows);
with 17 tied rows the partition step permutes them (though the output is
still a permutation of the input and, counts being equal or sorted, still
descending), as the explicit orders below show. -/
theorem C2_amended :
    (build_dataframe P17 [] []).map Row.post_id
      = [1, 10, 16, 15, 14, 13, 12, 11, 9, 2, 8, 7, 6, 5, 4, 3, 17]
    ∧ ((build_dataframe P17 [] []).map Row.post_id).Perm (P17.map Prod.fst)
    ∧ (build_dataframe (P17.take 16) [] []).map Row.post_id
      = (P17.take 16).map Prod.fst
    ∧ (build_dataframe [(1, "a"), (2, "b"), (3, "c")] []
        [(1, [100]), (2, [100]), (3, [])]).map Row.post_id = [1, 2, 3]
    ∧ (build_dataframe [(1, "a"), (2, "b"), (3, "c")] []
        [(1, []), (2, [100, 101]), (3, [100])]).map Row.post_id = [2, 3, 1] :=
  ⟨by decide, by decide, by decide, by decide, by decide⟩

/-- C3: the claim asserts `get_all_posts` deduplicates by identifier
across pages.  False: an article listed on both pages appears twice. -/
theorem C3_counterexample :
    ¬ ((get_all_posts (twoPageBehavior [(1, "a")] [(1, "a")])).map Prod.fst).Nodup := by
  decide

/-- C3 (amended): `get_all_posts` concatenates the entries of all pages
in page order with no deduplication whatsoever: duplicate identifiers
across pages are all retained. -/
theorem C3_amended :
    (∀ (a : Article) (e1 e2 : List Article),
        get_all_posts (twoPageBehavior (a :: e1) e2) = (a :: e1) ++ e2)
    ∧ get_all_posts (twoPageBehavior [(1, "a")] [(1, "a")]) = [(1, "a"), (1, "a")] :=
  ⟨get_all_posts_twoPages, by decide⟩

/-- C4: the claim asserts that a malformed page after the first makes
`get_all_posts` stop early and keep the prior pages.  False: the
exception raised while processing the malformed page is caught by the
function-wide handler, which returns the empty list — everything already
accumulated is discarded. -/
theorem C4_counterexample :
    get_all_posts malformedPage2 = [] ∧ get_all_posts malformedPage2 ≠ [(1, "a")] :=
  ⟨by decide, by decide⟩

/-- C4 (amended): a malformed page (entry missing `id`, or a truthy
non-list body) makes `get_all_posts` return the empty list, discarding
prior pages; only a failed fetch (or an empty page) stops early while
keeping the articles accumulated so far, as with a failure on page 3 of
5. -/
theorem C4_amended :
    get_all_posts malformedPage2 = []
    ∧ get_all_posts nonListPage2 = []
    ∧ get_all_posts failPage3of5 = [(1, "a"), (2, "b")] :=
  ⟨by decide, by decide, by decide⟩

/-- C5: `resolve_slug_to_id` is claimed never to raise.  The retry path
indeed degrades to `None` (last conjunct), but a response whose first
element lacks an `id` member, a list of non-objects, or a truthy non-list
body all reach the generic `except Exception` handler, whose logging
line references the undefined name `url` — the handler itself raises
`NameError` to the caller. -/
theorem C5_crash :
    resolve_slug_to_id (fun _ => .ok (.arr [.obj none none]))
      (fun _ => .fail) (fun _ => .fail) true 3 = .error ()
    ∧ resolve_slug_to_id (fun _ => .ok (.arr [.nonObj]))
      (fun _ => .fail) (fun _ => .fail) true 3 = .error ()
    ∧ resolve_slug_to_id (fun _ => .ok .nonArrTruthy)
      (fun _ => .fail) (fun _ => .fail) true 3 = .error ()
    ∧ resolve_slug_to_id (fun _ => .fail) (fun _ => .fail) (fun _ => .fail) true 3
      = .ok none :=
  ⟨by decide, by decide, by decide, by decide⟩

/-- C6: conservation of link count.  When every outgoing target belongs
to the article set, `calculate_incoming_links` appends exactly one
incoming entry per outgoing entry, so the totals agree. -/
theorem C6_conservation (all_posts : List Article) (links_per_post : LMap)
    (h : ∀ kv ∈ links_per_post, ∀ t ∈ kv.2, t ∈ all_posts.map Prod.fst) :
    totalLen (calculate_incoming_links all_posts links_per_post)
      = totalLen links_per_post := by
  unfold calculate_incoming_links
  rw [totalLen_calcFold _ _
    (fun kv hkv t ht => (dictMemKey_initIncoming t all_posts).mpr (h kv hkv t ht))]
  rw [totalLen_of_allNil (allNil_initIncoming all_posts)]
  omega

/-- C6 witness: a concrete article set and link map satisfying the
hypothesis, with the two totals evaluated. -/
theorem C6_conservation_witness :
    (∀ kv ∈ ([(1, [2, 2]), (2, [1])] : LMap), ∀ t ∈ kv.2,
        t ∈ ([(1, "a"), (2, "b")] : List Article).map Prod.fst)
    ∧ totalLen (calculate_incoming_links [(1, "a"), (2, "b")] [(1, [2, 2]), (2, [1])])
      = totalLen [(1, [2, 2]), (2, [1])] :=
  ⟨by decide, C6_conservation [(1, "a"), (2, "b")] [(1, [2, 2]), (2, [1])] (by decide)⟩

/-- C7: `extract_acf_links` on the three accepted shapes.  The two
examples of the claim evaluate as stated; an absent field yields the
empty list; and in general every element kept is exactly one coercible to
a non-negative integer (`specKeep`), in order, for both the list shape
and the comma-separated string shape. -/
theorem C7_acf_extraction :
    extract_acf_links [("related-posts", .fstr "12, 34, bad, 56")] "related-posts"
      = [12, 34, 56]
    ∧ extract_acf_links [("related-posts", .flist [.vint 12, .vstr "34", .vstr "x"])]
      "related-posts" = [12, 34]
    ∧ extract_acf_links [] "related-posts" = []
    ∧ extract_acf_links [("some-other-field", .fstr "12")] "related-posts" = []
    ∧ (∀ xs : List AcfVal,
        extract_acf_links [("related-posts", .flist xs)] "related-posts"
          = xs.filterMap specKeep)
    ∧ (∀ s : String,
        extract_acf_links [("related-posts", .fstr s)] "related-posts"
          = ((pySplit ',' s).map pyStrip).filterMap
              (fun p => if pyIsDigit p then some (pyInt p) else none)) := by
  refine ⟨by decide, by decide, by decide, by decide, fun xs => ?_, fun s => ?_⟩
  · simp only [extract_acf_links, acfGet, if_pos rfl]
    exact List.filterMap_congr (fun v _ => acfCoerce_eq_specKeep v)
  · rw [show extract_acf_links [("related-posts", .fstr s)] "related-posts"
        = ((((pySplit ',' s).map pyStrip).filter pyIsDigit).filter pyIsDigit).map pyInt
      from rfl]
    rw [List.filter_filter]
    simp only [Bool.and_self]
    exact map_filter_eq_filterMap pyIsDigit pyInt ((pySplit ',' s).map pyStrip)

/-- C8: the claim applies the binary-extension filter to the final path
segment after stripping the trailing slash.  False: the source tests
`path.lower().endswith(...)` before stripping, so a binary asset link
with a trailing slash is not filtered — it yields the slug
`report.pdf`, where the claim's reading (`claimProcessLink`) skips it. -/
theorem C8_counterexample :
    extract_internal_links "<a href=\"https://example.com/files/report.pdf/\">x</a>"
      "https://example.com" = ["report.pdf"]
    ∧ claimProcessLink "/files/report.pdf/" = none
    ∧ processLink "/files/report.pdf/" = some "report.pdf" :=
  ⟨by decide, by decide, by decide⟩

/-- C8 (amended): same-origin anchors yield the last non-empty path
segment as slug; the extension filter is applied to the unstripped path,
so it only fires when the path itself ends in the extension — the two
examples of the claim evaluate as stated, and a trailing slash defeats
the filter. -/
theorem C8_amended :
    extract_internal_links "<a href=\"https://example.com/about\">x</a>"
      "https://example.com" = ["about"]
    ∧ extract_internal_links "<a href=\"https://example.com/files/report.pdf\">x</a>"
      "https://example.com" = []
    ∧ extract_internal_links "<a href=\"https://example.com/files/report.pdf/\">x</a>"
      "https://example.com" = ["report.pdf"]
    ∧ (∀ content base : String,
        extract_internal_links content base
          = (findallAnchors content.toList (rstripSlash base).toList).filterMap
              processLink)
    ∧ (∀ link : String,
        processLink link = if hasBinExt (urlPath link) then none
          else some (lastNonEmptySeg (urlPath link))) := by
  refine ⟨by decide, by decide, by decide, fun content base => rfl, fun link => ?_⟩
  simp only [processLink, slugOf_eq_lastNonEmptySeg]

/-- C9: the claim asserts that an unexpected error in one site's
processing aborts only that site.  False: the `try/except` in `main`
wraps the whole site loop, so the crash raised while resolving a slug of
the first site ends the entire run — the healthy second site, which
alone produces a report, is never processed. -/
theorem C9_counterexample :
    main [crashSite, goodSite] = [] ∧ main [goodSite] ≠ [] :=
  ⟨by rfl, by decide⟩

/-- C9 (amended): an exception escaping one site's processing ends the
whole multi-site run (no later site is processed); only the
empty-article-list check skips a single site and continues. -/
theorem C9_amended :
    (∀ (sb : SiteBehavior) (rest : List SiteBehavior),
        processSite sb = .error () → main (sb :: rest) = [])
    ∧ (∀ (sb : SiteBehavior) (rest : List SiteBehavior),
        processSite sb = .ok none → main (sb :: rest) = main rest)
    ∧ processSite crashSite = .error () := by
  refine ⟨fun sb rest h => ?_, fun sb rest h => ?_, by rfl⟩
  · simp [main, h]
  · simp [main, h]

/-- C9 witness: the amended claim applied to the crashing site and to a
site whose article list cannot be fetched. -/
theorem C9_amended_witness :
    main [crashSite, goodSite] = [] ∧ main (emptySite :: [goodSite]) = main [goodSite] :=
  ⟨C9_amended.1 crashSite [goodSite] (by rfl),
   C9_amended.2.1 emptySite [goodSite] (by rfl)⟩

/-- C10: `if linked_post_id:` is Python truthiness, so a reference whose
resolution yields the well-formed identifier 0 takes the warning branch
and is never appended: no outgoing list of `links_per_post` ever
contains 0, whatever the site behaviour. -/
theorem C10_zero_never_kept (sb : SiteBehavior) (all_posts : List Article)
    (lm : LMap) (pid : Int) (l : List Int)
    (h1 : buildLinksPerPost sb all_posts = .ok lm)
    (h2 : dictGet pid lm = some l) :
    (0 : Int) ∉ l := by
  have h3 : noZero lm :=
    postsLoop_noZero sb (all_posts.map Prod.fst) all_posts [] lm
      (by intro kv hkv; simp at hkv) h1
  exact h3 (pid, l) (dictGet_mem h2)

/-- C10 witness: a site whose article carries the ACF references
`[0, 5]`; the built map keeps only 5. -/
theorem C10_zero_never_kept_witness : (0 : Int) ∉ ([5] : List Int) :=
  C10_zero_never_kept zeroRefSite [(5, "p")] [(5, [5])] 5 [5] (by rfl) (by rfl)
